import Mathlib

/-!
Verification of the timeline reconciliation engine of this repository.

The engine itself (the `matrix-sdk-ui` timeline module) is not part of the
source tree available here; only its integration tests are. Every definition
below is therefore modelled from the specification document, faithful to its
words, and the integration tests are used as concrete scenarios. All doc
comments on definitions name the spec section they embed.
-/

namespace Timeline

abbrev EventId := String
abbrev UserId := String

/-- Modelled from the spec: section 3, `TimelineDetails<T>` — the state of a
lazily-resolved dependency used for reply-target resolution. The payload of
the ready state is the body of the resolved event; the payload of the failed
state is the failure reason. -/
inductive TimelineDetails where
  | unavailable
  | pending
  | ready (body : String)
  | failed (reason : String)
deriving DecidableEq, Repr

/-- Modelled from the spec: section 3, the in-reply-to descriptor carried by a
message content: the target event id plus the lazily resolved details. -/
structure InReplyTo where
  eventId : EventId
  details : TimelineDetails
deriving DecidableEq, Repr

/-- Modelled from the spec: section 3, `Content` variants — a renderable
message (body plus optional in-reply-to descriptor), a redacted message whose
original content is erased, and other typed contents passed through opaque. -/
inductive TLContent where
  | message (body : String) (inReplyTo : Option InReplyTo)
  | redactedMessage
  | other (kind : String)
deriving DecidableEq, Repr

/-- Modelled from the spec: section 3, one `{sender, reaction-event-id}` entry
of a `ReactionGroup`. -/
structure Reaction where
  sender : UserId
  eventId : EventId
deriving DecidableEq, Repr

/-- Reactions of an item: ordered mapping from reaction key to its group. -/
abbrev Reactions := List (String × List Reaction)

/-- Modelled from the spec: section 3, `EventItem` — a rendered protocol
event with stable local identifier, optional remote event id, sender,
origin timestamp, content, reactions, edited flag, highlighted flag,
is-own flag and read-receipt set. -/
structure EventItem where
  localId : Nat
  eventId : Option EventId
  sender : UserId
  timestamp : Nat
  content : TLContent
  reactions : Reactions
  edited : Bool
  highlighted : Bool
  isOwn : Bool
  readReceipts : List UserId
deriving DecidableEq, Repr

/-- Modelled from the spec: section 3, `VirtualItem` — date-boundary marker
or the read marker; carries no event id. -/
inductive VirtualItem where
  | dateDivider (day : Nat)
  | readMarker
deriving DecidableEq, Repr

/-- Modelled from the spec: section 3, `TimelineItem` — tagged union of an
event item and a virtual item. -/
inductive TimelineItem where
  | event (e : EventItem)
  | virtual (v : VirtualItem)
deriving DecidableEq, Repr

/-- Modelled from the spec: glossary, a diff — minimal description of one
change to an ordered sequence, mirroring the `VectorDiff` shape used by the
integration tests (push-back, insert, set, remove, clear). -/
inductive VectorDiff where
  | pushBack (v : TimelineItem)
  | insert (i : Nat) (v : TimelineItem)
  | set (i : Nat) (v : TimelineItem)
  | remove (i : Nat)
  | clear
deriving DecidableEq, Repr

/-- Insert a value at position `i` of a list (at the end when `i` exceeds the
length). -/
def insertAt (i : Nat) (v : TimelineItem) (l : List TimelineItem) : List TimelineItem :=
  l.take i ++ v :: l.drop i

/-- Apply one positional diff to an item sequence. -/
def applyDiff (items : List TimelineItem) : VectorDiff → List TimelineItem
  | .pushBack v => items ++ [v]
  | .insert i v => insertAt i v items
  | .set i v => items.set i v
  | .remove i => items.eraseIdx i
  | .clear => []

/-- Apply a list of diffs in delivery order. -/
def applyDiffs (items : List TimelineItem) (ds : List VectorDiff) : List TimelineItem :=
  ds.foldl applyDiff items

/-- Modelled from the spec: section 2, the normalized internal event
representation produced by the Event Normalizer, with relation metadata
extracted (edit target, reaction target, reply target, redaction target). -/
inductive NEvent where
  | message (eventId : EventId) (sender : UserId) (ts : Nat) (body : String)
      (inReplyTo : Option EventId) (isOwn : Bool)
  | edit (eventId : EventId) (sender : UserId) (ts : Nat) (target : EventId) (newBody : String)
  | reaction (eventId : EventId) (sender : UserId) (ts : Nat) (target : EventId) (key : String)
  | redaction (eventId : EventId) (sender : UserId) (ts : Nat) (target : EventId)
deriving DecidableEq, Repr

/-- Modelled from the spec: section 4.2, a queued relation waiting for its
target to be placed. -/
inductive Rel where
  | editR (sender : UserId) (newBody : String)
  | reactR (key : String) (sender : UserId) (rid : EventId)
  | redactR
deriving DecidableEq, Repr

/-- Modelled from the spec: section 7, the taxonomy of hard errors — the only
hard error surfaced to a caller is `remoteEventNotInTimeline` from the
explicit detail-fetch request. -/
inductive TimelineError where
  | remoteEventNotInTimeline
deriving DecidableEq, Repr

/-- Modelled from the spec: sections 3 to 4.3 — the per-timeline state: the
Item Store, the monotone local-identifier counter, the queued relations keyed
by target event id, and a log of external single-event fetch invocations. -/
structure TState where
  items : List TimelineItem
  nextLocalId : Nat
  pendingRel : List (EventId × Rel)
  fetchCalls : List EventId
deriving DecidableEq, Repr

/-- The empty initial timeline state. -/
def initState : TState := ⟨[], 0, [], []⟩

/-- The remote event id of a placed item, absent for virtual items. -/
def placedId : TimelineItem → Option EventId
  | .event e => e.eventId
  | .virtual _ => none

/-- Find the first placed item carrying the given remote event id, together
with its index. -/
def findByEventIdAux (eid : EventId) : Nat → List TimelineItem → Option (Nat × EventItem)
  | _, [] => none
  | i, .event e :: rest =>
      if e.eventId = some eid then some (i, e) else findByEventIdAux eid (i + 1) rest
  | i, .virtual _ :: rest => findByEventIdAux eid (i + 1) rest

def findByEventId (items : List TimelineItem) (eid : EventId) : Option (Nat × EventItem) :=
  findByEventIdAux eid 0 items

/-- The body of a message item, used to build a ready reply resolution. -/
def bodyOf (e : EventItem) : String :=
  match e.content with
  | .message b _ => b
  | _ => ""

/-- Modelled from the spec: section 4.3 — resolve a reply target: if the
event id matches an item already in the Item Store the result is ready,
constructed from that item; otherwise unavailable, with no fetch. -/
def resolve (st : TState) (eid : EventId) : TimelineDetails :=
  match findByEventId st.items eid with
  | some (_, e) => .ready (bodyOf e)
  | none => .unavailable

/-- Modelled from the spec: section 4.2 — append a reaction entry to the
group keyed by the reaction key, preserving first-seen insertion order. -/
def addReaction (key : String) (r : Reaction) : Reactions → Reactions
  | [] => [(key, [r])]
  | (k, g) :: rest =>
      if k = key then (k, g ++ [r]) :: rest else (k, g) :: addReaction key r rest

/-- Remove every entry with the given reaction event id from the groups and
drop groups whose sender set becomes empty. -/
def rmReactionId (rid : EventId) (gs : Reactions) : Reactions :=
  (gs.map (fun g => (g.1, g.2.filter (fun x => x.eventId ≠ rid)))).filter
    (fun g => g.2 ≠ [])

/-- Whether the groups contain an entry with the given reaction event id. -/
def hasReactionId (rid : EventId) (gs : Reactions) : Bool :=
  gs.any (fun g => g.2.any (fun x => x.eventId = rid))

def itemHasRid (rid : EventId) : TimelineItem → Bool
  | .event e => hasReactionId rid e.reactions
  | .virtual _ => false

/-- Find the first item holding a reaction entry with the given reaction
event id; return its index together with the item with that entry removed
and empty groups dropped. -/
def findReactionAux (rid : EventId) : Nat → List TimelineItem → Option (Nat × EventItem)
  | _, [] => none
  | i, .event e :: rest =>
      if hasReactionId rid e.reactions then
        some (i, { e with reactions := rmReactionId rid e.reactions })
      else findReactionAux rid (i + 1) rest
  | i, .virtual _ :: rest => findReactionAux rid (i + 1) rest

def findReactionEntry (items : List TimelineItem) (rid : EventId) : Option (Nat × EventItem) :=
  findReactionAux rid 0 items

/-- Modelled from the spec: section 4.2 — apply an edit to a placed item:
only the original sender may edit (silently ignored otherwise) and only a
renderable message content is replaced; the edited flag is set and the
in-reply-to descriptor, identity, timestamp and reactions are kept. -/
def applyEditToItem (sender : UserId) (newBody : String) (e : EventItem) : Option EventItem :=
  if sender = e.sender then
    match e.content with
    | .message _ rep => some { e with content := .message newBody rep, edited := true }
    | _ => none
  else none

/-- Modelled from the spec: section 4.2 — apply a reaction to a placed
renderable item. -/
def applyReactionToItem (key : String) (sender : UserId) (rid : EventId) (e : EventItem) :
    Option EventItem :=
  match e.content with
  | .message _ _ => some { e with reactions := addReaction key ⟨sender, rid⟩ e.reactions }
  | _ => none

/-- Modelled from the spec: section 4.2 — redact a placed item: if its
content is a renderable message, replace it with the redacted placeholder,
clear the reactions and clear the edited flag; otherwise (already redacted
or non-renderable) nothing happens. -/
def applyRedactionToItem (e : EventItem) : Option EventItem :=
  match e.content with
  | .message _ _ => some { e with content := .redactedMessage, reactions := [], edited := false }
  | _ => none

/-- Apply one queued relation to an item. -/
def applyRelToItem (rel : Rel) (e : EventItem) : EventItem :=
  match rel with
  | .editR s nb => (applyEditToItem s nb e).getD e
  | .reactR k s rid => (applyReactionToItem k s rid e).getD e
  | .redactR => (applyRedactionToItem e).getD e

/-- Extract (in arrival order) the relations queued for the given target id
and keep the rest of the queue. -/
def takeQueued (t : EventId) : List (EventId × Rel) → List Rel × List (EventId × Rel)
  | [] => ([], [])
  | (x, rel) :: rest =>
      if x = t then ((rel :: (takeQueued t rest).1), (takeQueued t rest).2)
      else ((takeQueued t rest).1, (x, rel) :: (takeQueued t rest).2)

/-- The timestamp of the newest event item, if any. -/
def lastEventTs (items : List TimelineItem) : Option Nat :=
  items.foldl
    (fun acc it =>
      match it with
      | .event e => some e.timestamp
      | .virtual _ => acc)
    none

/-- The calendar day of a millisecond timestamp. -/
def dayOf (ts : Nat) : Nat := ts / 86400000

/-- Modelled from the spec: read receipts move with their sender — remove
the first (unique) read receipt of the given sender from an already-placed
item, publishing the change as an in-place set diff at that index. -/
def removeReceipt (u : UserId) : Nat → List TimelineItem → List TimelineItem × List VectorDiff
  | _, [] => ([], [])
  | i, .event e :: rest =>
      if u ∈ e.readReceipts then
        (.event { e with readReceipts := e.readReceipts.erase u } :: rest,
         [.set i (.event { e with readReceipts := e.readReceipts.erase u })])
      else
        (.event e :: (removeReceipt u (i + 1) rest).1, (removeReceipt u (i + 1) rest).2)
  | i, .virtual v :: rest =>
      (.virtual v :: (removeReceipt u (i + 1) rest).1, (removeReceipt u (i + 1) rest).2)

/-- The fresh item built for a newly placed message, before queued relations
are applied: local identifier from the monotone counter, reply target
resolved against the Item Store, highlighted decided by the push-rule
function except that own-sent events are never highlighted. -/
def baseItem (pf : NEvent → Bool) (st : TState) (eid : EventId) (senderU : UserId)
    (ts : Nat) (body : String) (inReplyTo : Option EventId) (own : Bool) : EventItem :=
  { localId := st.nextLocalId, eventId := some eid, sender := senderU, timestamp := ts,
    content := .message body (inReplyTo.map (fun t => ⟨t, resolve st t⟩)),
    reactions := [], edited := false,
    highlighted := !own && pf (.message eid senderU ts body inReplyTo own),
    isOwn := own, readReceipts := [senderU] }

/-- The placed item after the relations queued for its event id have been
applied in arrival order. -/
def placedItem (pf : NEvent → Bool) (st : TState) (eid : EventId) (senderU : UserId)
    (ts : Nat) (body : String) (inReplyTo : Option EventId) (own : Bool) : EventItem :=
  (takeQueued eid st.pendingRel).1.foldl (fun e rel => applyRelToItem rel e)
    (baseItem pf st eid senderU ts body inReplyTo own)

/-- The date divider to splice in before a message of a new calendar day. -/
def divItemsOf (st : TState) (ts : Nat) : List TimelineItem :=
  let needDiv : Bool :=
    match lastEventTs st.items with
    | none => true
    | some t0 => dayOf t0 ≠ dayOf ts
  if needDiv then [.virtual (.dateDivider (dayOf ts))] else []

/-- Modelled from the spec: sections 4.1 to 4.5 — place a new message event:
resolve its reply target from the Item Store (section 4.3), apply the
relations queued for its event id in arrival order (section 4.2), move the
read receipt of its sender off the previously receipted item, insert a date
divider before the first item of a new calendar day (section 4.4), and
append the item, publishing one diff per mutation (section 4.5). -/
def placeMessage (pf : NEvent → Bool) (st : TState) (eid : EventId) (senderU : UserId)
    (ts : Nat) (body : String) (inReplyTo : Option EventId) (own : Bool) :
    TState × List VectorDiff :=
  ({ items := (removeReceipt senderU 0 st.items).1 ++ divItemsOf st ts ++
       [.event (placedItem pf st eid senderU ts body inReplyTo own)],
     nextLocalId := st.nextLocalId + 1,
     pendingRel := (takeQueued eid st.pendingRel).2, fetchCalls := st.fetchCalls },
   (removeReceipt senderU 0 st.items).2 ++ (divItemsOf st ts).map .pushBack ++
     [.pushBack (.event (placedItem pf st eid senderU ts body inReplyTo own))])

/-- Modelled from the spec: sections 4.1, 4.2 and 5 — serialized ingestion of
one normalized event: messages are placed; edits, reactions and redactions
are applied to their placed target, a redaction of a reaction event removes
that single entry, and a relation whose target is not yet placed is queued
by target id. Every Item Store mutation yields exactly one diff. -/
def ingest (pf : NEvent → Bool) (st : TState) : NEvent → TState × List VectorDiff
  | .message eid s ts body rep own => placeMessage pf st eid s ts body rep own
  | .edit _ s _ target newBody =>
      match findByEventId st.items target with
      | some (i, e) =>
          match applyEditToItem s newBody e with
          | some e' => ({ st with items := st.items.set i (.event e') }, [.set i (.event e')])
          | none => (st, [])
      | none =>
          ({ st with pendingRel := st.pendingRel ++ [(target, .editR s newBody)] }, [])
  | .reaction rid s _ target key =>
      match findByEventId st.items target with
      | some (i, e) =>
          match applyReactionToItem key s rid e with
          | some e' => ({ st with items := st.items.set i (.event e') }, [.set i (.event e')])
          | none => (st, [])
      | none =>
          ({ st with pendingRel := st.pendingRel ++ [(target, .reactR key s rid)] }, [])
  | .redaction _ _ _ target =>
      match findByEventId st.items target with
      | some (i, e) =>
          match applyRedactionToItem e with
          | some e' => ({ st with items := st.items.set i (.event e') }, [.set i (.event e')])
          | none => (st, [])
      | none =>
          match findReactionEntry st.items target with
          | some (i, e') =>
              ({ st with items := st.items.set i (.event e') }, [.set i (.event e')])
          | none =>
              ({ st with pendingRel := st.pendingRel ++ [(target, .redactR)] }, [])

/-- Ingest a batch of normalized events in delivery order, keeping only the
resulting state. -/
def ingestList (pf : NEvent → Bool) (st : TState) (l : List NEvent) : TState :=
  l.foldl (fun s ev => (ingest pf s ev).1) st

/-- The reply details of an item when it references the given target id. -/
def replyRef (eid : EventId) : TimelineItem → Option TimelineDetails
  | .event e =>
      match e.content with
      | .message _ (some rp) => if rp.eventId = eid then some rp.details else none
      | _ => none
  | .virtual _ => none

/-- Whether some item references the given event id as a reply target. -/
def hasDep (items : List TimelineItem) (eid : EventId) : Bool :=
  items.any (fun it => (replyRef eid it).isSome)

/-- The reply-resolution states of all items depending on the given target
id, in item order. -/
def depDetails (items : List TimelineItem) (eid : EventId) : List TimelineDetails :=
  items.filterMap (replyRef eid)

/-- Set the reply details of an item when it references the given target. -/
def setReplyDetails (eid : EventId) (d : TimelineDetails) (e : EventItem) : Option EventItem :=
  match e.content with
  | .message b (some rp) =>
      if rp.eventId = eid then some { e with content := .message b (some ⟨eid, d⟩) } else none
  | _ => none

/-- Transition the reply state of every item depending on the given target
id, emitting one set diff per updated item. -/
def updateDepsAux (eid : EventId) (d : TimelineDetails) :
    Nat → List TimelineItem → List TimelineItem × List VectorDiff
  | _, [] => ([], [])
  | i, .event e :: rest =>
      match setReplyDetails eid d e with
      | some e' =>
          (.event e' :: (updateDepsAux eid d (i + 1) rest).1,
           .set i (.event e') :: (updateDepsAux eid d (i + 1) rest).2)
      | none =>
          (.event e :: (updateDepsAux eid d (i + 1) rest).1, (updateDepsAux eid d (i + 1) rest).2)
  | i, .virtual v :: rest =>
      (.virtual v :: (updateDepsAux eid d (i + 1) rest).1, (updateDepsAux eid d (i + 1) rest).2)

def updateDeps (eid : EventId) (d : TimelineDetails) (items : List TimelineItem) :
    List TimelineItem × List VectorDiff :=
  updateDepsAux eid d 0 items

/-- Modelled from the spec: sections 4.3, 6 and 7 — the explicit detail-fetch
request: it fails with the hard error `remoteEventNotInTimeline` when no item
in the timeline references the id as a reply target (state untouched, no
diff); otherwise it records one external fetch invocation and transitions
every dependent item to the pending state, emitting one update each. -/
def fetch_details_for_event (st : TState) (eid : EventId) :
    TState × List VectorDiff × Option TimelineError :=
  if hasDep st.items eid then
    ({ items := (updateDeps eid TimelineDetails.pending st.items).1,
       nextLocalId := st.nextLocalId, pendingRel := st.pendingRel,
       fetchCalls := st.fetchCalls ++ [eid] },
     (updateDeps eid TimelineDetails.pending st.items).2, none)
  else
    (st, [], some .remoteEventNotInTimeline)

/-- Modelled from the spec: section 4.3 — completion of an in-flight detail
fetch re-enters the serialized write path and transitions every dependent
item to ready on success or to the failed state on failure. -/
def fetchComplete (st : TState) (eid : EventId) (res : Except String String) :
    TState × List VectorDiff :=
  let d : TimelineDetails :=
    match res with
    | .ok b => .ready b
    | .error m => .failed m
  ({ st with items := (updateDeps eid d st.items).1 }, (updateDeps eid d st.items).2)

/-- Whether an item is the read-marker virtual item. -/
def isMarker : TimelineItem → Bool
  | .virtual .readMarker => true
  | _ => false

/-- Modelled from the spec: section 4.4 — receipt of the fully-read event id:
locate the referenced item; if it is absent or is the last item of the
sequence no marker is placed; otherwise any existing marker is removed and
exactly one read marker is inserted immediately after the referenced item. -/
def handleFullyRead (st : TState) (eid : EventId) : TState × List VectorDiff :=
  match findByEventId st.items eid with
  | none => (st, [])
  | some (i, _) =>
      if i + 1 = st.items.length then (st, [])
      else
        match st.items.findIdx? isMarker with
        | none =>
            ({ st with items := insertAt (i + 1) (.virtual .readMarker) st.items },
             [.insert (i + 1) (.virtual .readMarker)])
        | some j =>
            let cleaned := st.items.eraseIdx j
            let p := if j ≤ i then i else i + 1
            ({ st with items := insertAt p (.virtual .readMarker) cleaned },
             [.remove j, .insert p (.virtual .readMarker)])

/-- One serialized operation of the write path (section 5): ingestion of a
normalized event, the fully-read account-data update, the explicit detail
fetch, or the completion of an in-flight fetch with an external outcome. -/
inductive Op where
  | ing (pf : NEvent → Bool) (ev : NEvent)
  | fullyRead (eid : EventId)
  | fStart (eid : EventId)
  | fDone (eid : EventId) (res : Except String String)

/-- Run one serialized operation, returning the new state and its diffs. -/
def runOp (st : TState) : Op → TState × List VectorDiff
  | .ing pf ev => ingest pf st ev
  | .fullyRead eid => handleFullyRead st eid
  | .fStart eid =>
      let r := fetch_details_for_event st eid
      (r.1, r.2.1)
  | .fDone eid res => fetchComplete st eid res

/-- Timeline states reachable from the empty timeline by serialized
operations. -/
inductive SReach : TState → Prop where
  | init : SReach initState
  | step {st : TState} (o : Op) : SReach st → SReach (runOp st o).1

/-- Modelled from the spec: section 4.5 — one subscriber: the snapshot taken
at subscription time and the in-order buffer of diffs delivered since. -/
structure Subscriber where
  snapshot : List TimelineItem
  diffs : List VectorDiff
deriving Repr

/-- Modelled from the spec: section 4.5 — the subscription hub: the live
state plus all subscribers. -/
structure Hub where
  state : TState
  subs : List Subscriber

/-- Modelled from the spec: sections 4.5 and 5 — one atomic step of the hub:
either a serialized write operation, whose diffs are delivered to every
subscriber in the same critical section as the store mutation, or a new
subscription, whose snapshot is the live sequence at that instant and whose
diff buffer starts empty. -/
inductive HStep : Hub → Hub → Prop where
  | op (h : Hub) (o : Op) :
      HStep h ⟨(runOp h.state o).1,
        h.subs.map (fun s => ⟨s.snapshot, s.diffs ++ (runOp h.state o).2⟩)⟩
  | sub (h : Hub) :
      HStep h ⟨h.state, h.subs ++ [⟨h.state.items, []⟩]⟩

/-- Hub states reachable from the empty hub. -/
inductive HReach : Hub → Prop where
  | init : HReach ⟨initState, []⟩
  | step {h h' : Hub} : HReach h → HStep h h' → HReach h'

/-- Snapshot and diff-stream consistency of every subscriber of a hub. -/
def subsConsistent (h : Hub) : Prop :=
  ∀ s ∈ h.subs, applyDiffs s.snapshot s.diffs = h.state.items

/-! Faithfulness of the emitted diffs: applying the diffs of one serialized
operation to the previous item sequence reproduces the new item sequence. -/

theorem applyDiffs_append (l : List TimelineItem) (d1 d2 : List VectorDiff) :
    applyDiffs l (d1 ++ d2) = applyDiffs (applyDiffs l d1) d2 :=
  List.foldl_append _ _ _ _

theorem set_append_cons (pre : List TimelineItem) (x v : TimelineItem)
    (post : List TimelineItem) : (pre ++ x :: post).set pre.length v = pre ++ v :: post := by
  induction pre with
  | nil => rfl
  | cons h t ih => simp [List.set, ih]

theorem removeReceipt_faithful (u : UserId) (l : List TimelineItem) :
    ∀ pre : List TimelineItem,
      applyDiffs (pre ++ l) (removeReceipt u pre.length l).2 =
        pre ++ (removeReceipt u pre.length l).1 := by
  induction l with
  | nil => intro pre; simp [removeReceipt, applyDiffs]
  | cons it rest ih =>
      intro pre
      cases it with
      | event e =>
          by_cases hu : u ∈ e.readReceipts
          · simp only [removeReceipt, if_pos hu]
            simp [applyDiffs, applyDiff, set_append_cons]
          · simp only [removeReceipt, if_neg hu]
            have h1 := ih (pre ++ [.event e])
            simpa [List.append_assoc] using h1
      | virtual v =>
          simp only [removeReceipt]
          have h1 := ih (pre ++ [.virtual v])
          simpa [List.append_assoc] using h1

theorem updateDepsAux_faithful (eid : EventId) (d : TimelineDetails)
    (l : List TimelineItem) :
    ∀ pre : List TimelineItem,
      applyDiffs (pre ++ l) (updateDepsAux eid d pre.length l).2 =
        pre ++ (updateDepsAux eid d pre.length l).1 := by
  induction l with
  | nil => intro pre; simp [updateDepsAux, applyDiffs]
  | cons it rest ih =>
      intro pre
      cases it with
      | event e =>
          cases hs : setReplyDetails eid d e with
          | none =>
              simp only [updateDepsAux, hs]
              have h1 := ih (pre ++ [.event e])
              simpa [List.append_assoc] using h1
          | some e' =>
              simp only [updateDepsAux, hs]
              have h1 := ih (pre ++ [.event e'])
              simp only [applyDiffs, List.foldl_cons] at *
              rw [show applyDiff (pre ++ TimelineItem.event e :: rest)
                    (VectorDiff.set pre.length (TimelineItem.event e')) =
                  pre ++ TimelineItem.event e' :: rest from set_append_cons ..]
              simpa [List.append_assoc] using h1
      | virtual v =>
          simp only [updateDepsAux]
          have h1 := ih (pre ++ [.virtual v])
          simpa [List.append_assoc] using h1

theorem updateDeps_faithful (eid : EventId) (d : TimelineDetails) (l : List TimelineItem) :
    applyDiffs l (updateDeps eid d l).2 = (updateDeps eid d l).1 := by
  simpa using updateDepsAux_faithful eid d l []

theorem applyDiffs_pushBacks (l acc : List TimelineItem) :
    applyDiffs acc (l.map .pushBack) = acc ++ l := by
  induction l generalizing acc with
  | nil => simp [applyDiffs]
  | cons x xs ih =>
      simp only [List.map_cons, applyDiffs, List.foldl_cons, applyDiff] at ih ⊢
      rw [ih]
      simp

theorem ingest_faithful (pf : NEvent → Bool) (st : TState) (ev : NEvent) :
    applyDiffs st.items (ingest pf st ev).2 = (ingest pf st ev).1.items := by
  cases ev with
  | message eid s ts body rep own =>
      show applyDiffs st.items (placeMessage pf st eid s ts body rep own).2 =
        (placeMessage pf st eid s ts body rep own).1.items
      have hrec := removeReceipt_faithful s st.items []
      simp only [List.append_nil, List.nil_append, List.length_nil] at hrec
      simp only [placeMessage]
      rw [applyDiffs_append, applyDiffs_append, hrec, applyDiffs_pushBacks]
      simp [applyDiffs, applyDiff]
  | edit x s ts target nb =>
      cases hf : findByEventId st.items target with
      | none => simp [ingest, hf, applyDiffs]
      | some ie =>
          obtain ⟨i, e⟩ := ie
          cases ha : applyEditToItem s nb e with
          | none => simp [ingest, hf, ha, applyDiffs]
          | some e' => simp [ingest, hf, ha, applyDiffs, applyDiff]
  | reaction rid s ts target key =>
      cases hf : findByEventId st.items target with
      | none => simp [ingest, hf, applyDiffs]
      | some ie =>
          obtain ⟨i, e⟩ := ie
          cases ha : applyReactionToItem key s rid e with
          | none => simp [ingest, hf, ha, applyDiffs]
          | some e' => simp [ingest, hf, ha, applyDiffs, applyDiff]
  | redaction x s ts target =>
      cases hf : findByEventId st.items target with
      | none =>
          cases hr : findReactionEntry st.items target with
          | none => simp [ingest, hf, hr, applyDiffs]
          | some ie =>
              obtain ⟨i, e'⟩ := ie
              simp [ingest, hf, hr, applyDiffs, applyDiff]
      | some ie =>
          obtain ⟨i, e⟩ := ie
          cases ha : applyRedactionToItem e with
          | none => simp [ingest, hf, ha, applyDiffs]
          | some e' => simp [ingest, hf, ha, applyDiffs, applyDiff]

theorem handleFullyRead_faithful (st : TState) (eid : EventId) :
    applyDiffs st.items (handleFullyRead st eid).2 = (handleFullyRead st eid).1.items := by
  cases hf : findByEventId st.items eid with
  | none => simp [handleFullyRead, hf, applyDiffs]
  | some ie =>
      obtain ⟨i, e⟩ := ie
      by_cases hl : i + 1 = st.items.length
      · simp [handleFullyRead, hf, hl, applyDiffs]
      · cases hm : st.items.findIdx? isMarker with
        | none => simp [handleFullyRead, hf, hl, hm, applyDiffs, applyDiff]
        | some j => simp [handleFullyRead, hf, hl, hm, applyDiffs, applyDiff]

theorem runOp_faithful (st : TState) (o : Op) :
    applyDiffs st.items (runOp st o).2 = (runOp st o).1.items := by
  cases o with
  | ing pf ev => exact ingest_faithful pf st ev
  | fullyRead eid => exact handleFullyRead_faithful st eid
  | fStart eid =>
      by_cases h : hasDep st.items eid = true
      · simp [runOp, fetch_details_for_event, h, updateDeps_faithful]
      · simp [runOp, fetch_details_for_event, h, applyDiffs]
  | fDone eid res =>
      simp [runOp, fetchComplete, updateDeps_faithful]

/-- C1: for every subscriber, the pair returned by subscribe is consistent
with the live Item Store: folding the diff stream of the subscriber, in
delivery order, onto its initial snapshot reproduces the item sequence of
the store in every reachable hub state; no diff already reflected in the
snapshot is delivered and no diff occurring after snapshot capture is
dropped. -/
theorem c1_snapshot_diff_consistency (h : Hub) (hr : HReach h) : subsConsistent h := by
  induction hr with
  | init => intro s hs; simp at hs
  | step hr' hstep ih =>
      cases hstep with
      | op o =>
          intro s hs
          simp only [List.mem_map] at hs
          obtain ⟨s0, hs0, rfl⟩ := hs
          simpa [applyDiffs_append, ih s0 hs0] using runOp_faithful _ o
      | sub =>
          intro s hs
          rw [List.mem_append] at hs
          rcases hs with hs | hs
          · exact ih s hs
          · simp only [List.mem_singleton] at hs
            subst hs
            rfl

/-- Witness for C1: a hub with one subscriber that joined on the empty
timeline and then observed the ingestion of one message. -/
theorem c1_snapshot_diff_consistency_witness :
    subsConsistent
      ⟨(runOp initState
          (Op.ing (fun _ => false) (NEvent.message "m1" "alice" 100 "hello" none false))).1,
       [⟨[], (runOp initState
          (Op.ing (fun _ => false) (NEvent.message "m1" "alice" 100 "hello" none false))).2⟩]⟩ :=
  c1_snapshot_diff_consistency _
    (HReach.step (HReach.step HReach.init (HStep.sub ⟨initState, []⟩))
      (HStep.op ⟨initState, [⟨[], []⟩]⟩
        (Op.ing (fun _ => false) (NEvent.message "m1" "alice" 100 "hello" none false))))

/-! Highlight flag: relations never touch it, and own messages never get it. -/

theorem applyRelToItem_highlighted (rel : Rel) (e : EventItem) :
    (applyRelToItem rel e).highlighted = e.highlighted := by
  cases rel with
  | editR s nb =>
      simp only [applyRelToItem, applyEditToItem]
      by_cases h : s = e.sender
      · simp only [if_pos h]
        cases e.content <;> simp
      · simp [if_neg h]
  | reactR k s rid =>
      simp only [applyRelToItem, applyReactionToItem]
      cases e.content <;> simp
  | redactR =>
      simp only [applyRelToItem, applyRedactionToItem]
      cases e.content <;> simp

theorem foldRel_highlighted (rels : List Rel) (e : EventItem) :
    (rels.foldl (fun a r => applyRelToItem r a) e).highlighted = e.highlighted := by
  induction rels generalizing e with
  | nil => rfl
  | cons r rest ih => simp [List.foldl_cons, ih, applyRelToItem_highlighted]

/-- C9: for every event sent by the local user, the resulting event item has
a false highlighted flag, regardless of the outcome the push-rule decision
function would produce for that event. -/
theorem c9_own_events_never_highlighted (pf : NEvent → Bool) (st : TState) (eid : EventId)
    (s : UserId) (ts : Nat) (body : String) (rep : Option EventId) :
    ∃ itm : EventItem,
      (ingest pf st (.message eid s ts body rep true)).1.items.getLast? =
        some (.event itm) ∧ itm.highlighted = false := by
  refine ⟨placedItem pf st eid s ts body rep true, ?_, ?_⟩
  · show ((removeReceipt s 0 st.items).1 ++ divItemsOf st ts ++
      [TimelineItem.event (placedItem pf st eid s ts body rep true)]).getLast? = _
    rw [List.getLast?_concat]
  · rw [placedItem, foldRel_highlighted]
    simp [baseItem]

/-! Read receipts: a receipt move is an in-place set diff that never changes
the item sequence apart from the read-receipt metadata. -/

/-- Erase the read-receipt metadata of every item, for comparing sequences
up to receipts. -/
def stripReceipts (items : List TimelineItem) : List TimelineItem :=
  items.map fun it =>
    match it with
    | .event e => .event { e with readReceipts := [] }
    | .virtual v => .virtual v

theorem removeReceipt_diff_shape (u : UserId) (l : List TimelineItem) :
    ∀ n, ∀ d ∈ (removeReceipt u n l).2,
      ∃ i v, d = VectorDiff.set i v ∧ n ≤ i ∧ i < n + l.length := by
  induction l with
  | nil => intro n d hd; simp [removeReceipt] at hd
  | cons it rest ih =>
      intro n d hd
      cases it with
      | event e =>
          by_cases hu : u ∈ e.readReceipts
          · simp only [removeReceipt, if_pos hu, List.mem_singleton] at hd
            subst hd
            exact ⟨n, _, rfl, le_rfl, by simp⟩
          · simp only [removeReceipt, if_neg hu] at hd
            obtain ⟨i, v, rfl, hni, hil⟩ := ih (n + 1) d hd
            exact ⟨i, v, rfl, by omega, by simp at hil ⊢; omega⟩
      | virtual v =>
          simp only [removeReceipt] at hd
          obtain ⟨i, w, rfl, hni, hil⟩ := ih (n + 1) d hd
          exact ⟨i, w, rfl, by omega, by simp at hil ⊢; omega⟩

theorem stripReceipts_removeReceipt (u : UserId) (l : List TimelineItem) :
    ∀ n, stripReceipts (removeReceipt u n l).1 = stripReceipts l := by
  induction l with
  | nil => intro n; rfl
  | cons it rest ih =>
      intro n
      cases it with
      | event e =>
          by_cases hu : u ∈ e.readReceipts
          · simp [removeReceipt, if_pos hu, stripReceipts]
          · simp only [removeReceipt, if_neg hu]
            simp [stripReceipts] at ih ⊢
            exact ih (n + 1)
      | virtual v =>
          simp only [removeReceipt]
          simp [stripReceipts] at ih ⊢
          exact ih (n + 1)

/-- C10: when ingesting a sync batch updates the read-receipt metadata of an
already-placed item, that change is published as an in-place set diff at the
index of that item; a receipt update never inserts, removes or reorders
items (the sequence agrees with the old one once receipts are erased), and
it is emitted before the append diff of the new event of the same batch. -/
theorem c10_receipt_update_diffs (pf : NEvent → Bool) (st : TState) (eid : EventId)
    (u : UserId) (ts : Nat) (body : String) (rep : Option EventId) (own : Bool) :
    ∃ ap : List VectorDiff,
      (ingest pf st (.message eid u ts body rep own)).2 =
          (removeReceipt u 0 st.items).2 ++ ap ∧
        (∀ d ∈ (removeReceipt u 0 st.items).2,
          ∃ i v, d = VectorDiff.set i v ∧ i < st.items.length) ∧
        applyDiffs st.items (removeReceipt u 0 st.items).2 = (removeReceipt u 0 st.items).1 ∧
        stripReceipts (removeReceipt u 0 st.items).1 = stripReceipts st.items ∧
        (∀ d ∈ ap, ∃ v, d = VectorDiff.pushBack v) := by
  refine ⟨(divItemsOf st ts).map VectorDiff.pushBack ++
      [VectorDiff.pushBack (TimelineItem.event (placedItem pf st eid u ts body rep own))],
    ?_, ?_, ?_, stripReceipts_removeReceipt u st.items 0, ?_⟩
  · rw [← List.append_assoc]
    rfl
  · intro d hd
    obtain ⟨i, v, rfl, _, hil⟩ := removeReceipt_diff_shape u st.items 0 d hd
    exact ⟨i, v, rfl, by simpa using hil⟩
  · simpa using removeReceipt_faithful u st.items []
  · intro d hd
    rw [List.mem_append] at hd
    rcases hd with hd | hd
    · rcases List.mem_map.mp hd with ⟨v, _, rfl⟩
      exact ⟨v, rfl⟩
    · rcases List.mem_singleton.mp hd with rfl
      exact ⟨_, rfl⟩

/-- C3: the explicit detail-fetch request fails with the hard error
remoteEventNotInTimeline exactly when no item currently in the timeline
references the requested event id as a reply target, and in that case the
timeline state is unchanged and no diff is emitted; by the shape of the
embedding it is the only exposed operation carrying an error outcome. -/
theorem c3_fetch_error_iff_unreferenced (st : TState) (eid : EventId) :
    ((fetch_details_for_event st eid).2.2 = some TimelineError.remoteEventNotInTimeline ↔
      hasDep st.items eid = false) ∧
    (hasDep st.items eid = false →
      (fetch_details_for_event st eid).1 = st ∧ (fetch_details_for_event st eid).2.1 = []) := by
  cases h : hasDep st.items eid with
  | false => simp [fetch_details_for_event, h]
  | true => simp [fetch_details_for_event, h]

/-- Witness for C3: on the empty timeline every detail-fetch request is the
misuse case: it errors, keeps the state and emits nothing. -/
theorem c3_fetch_error_iff_unreferenced_witness :
    (fetch_details_for_event initState "$x").1 = initState ∧
      (fetch_details_for_event initState "$x").2.1 = [] :=
  (c3_fetch_error_iff_unreferenced initState "$x").2 (by decide)

/-! Reply resolution: lookup lemmas and the effect of a dependent-state
transition on every item referencing the target. -/

theorem findByEventIdAux_append (t : EventId) (pre : List TimelineItem) (e : EventItem)
    (post : List TimelineItem) (he : e.eventId = some t)
    (hpre : ∀ it ∈ pre, placedId it ≠ some t) :
    ∀ n, findByEventIdAux t n (pre ++ .event e :: post) = some (n + pre.length, e) := by
  induction pre with
  | nil => intro n; simp [findByEventIdAux, he]
  | cons it rest ih =>
      intro n
      have hit : placedId it ≠ some t := hpre it (by simp)
      have hrest : ∀ x ∈ rest, placedId x ≠ some t := fun x hx => hpre x (by simp [hx])
      cases it with
      | event e0 =>
          have : ¬ e0.eventId = some t := by simpa [placedId] using hit
          simp only [List.cons_append, findByEventIdAux, if_neg this]
          simpa [List.append_eq, Nat.add_comm, Nat.add_assoc, Nat.add_left_comm] using
            ih hrest (n + 1)
      | virtual v =>
          simp only [List.cons_append, findByEventIdAux]
          simpa [List.append_eq, Nat.add_comm, Nat.add_assoc, Nat.add_left_comm] using
            ih hrest (n + 1)

theorem findByEventIdAux_none (t : EventId) (l : List TimelineItem)
    (h : ∀ it ∈ l, placedId it ≠ some t) : ∀ n, findByEventIdAux t n l = none := by
  induction l with
  | nil => intro n; rfl
  | cons it rest ih =>
      intro n
      have hit : placedId it ≠ some t := h it (by simp)
      have hrest : ∀ x ∈ rest, placedId x ≠ some t := fun x hx => h x (by simp [hx])
      cases it with
      | event e0 =>
          have : ¬ e0.eventId = some t := by simpa [placedId] using hit
          simp only [findByEventIdAux, if_neg this]
          exact ih hrest (n + 1)
      | virtual v =>
          simp only [findByEventIdAux]
          exact ih hrest (n + 1)

/-- The pointwise form of a dependent-state transition. -/
def updItem (eid : EventId) (d : TimelineDetails) : TimelineItem → TimelineItem
  | .event e => .event ((setReplyDetails eid d e).getD e)
  | .virtual v => .virtual v

theorem updateDepsAux_fst (eid : EventId) (d : TimelineDetails) (l : List TimelineItem) :
    ∀ n, (updateDepsAux eid d n l).1 = l.map (updItem eid d) := by
  induction l with
  | nil => intro n; rfl
  | cons it rest ih =>
      intro n
      cases it with
      | event e =>
          cases hs : setReplyDetails eid d e with
          | none => simp [updateDepsAux, hs, updItem, ih (n + 1)]
          | some e' => simp [updateDepsAux, hs, updItem, ih (n + 1)]
      | virtual v => simp [updateDepsAux, updItem, ih (n + 1)]

theorem replyRef_updItem (eid : EventId) (d : TimelineDetails) (it : TimelineItem) :
    replyRef eid (updItem eid d it) = (replyRef eid it).map (fun _ => d) := by
  cases it with
  | virtual v => rfl
  | event e =>
      cases hc : e.content with
      | message b rp =>
          cases rp with
          | none => simp [updItem, setReplyDetails, hc, replyRef]
          | some r =>
              by_cases ht : r.eventId = eid
              · simp [updItem, setReplyDetails, hc, ht, replyRef]
              · simp [updItem, setReplyDetails, hc, ht, replyRef]
      | redactedMessage => simp [updItem, setReplyDetails, hc, replyRef]
      | other k => simp [updItem, setReplyDetails, hc, replyRef]

theorem depDetails_updateDeps (eid : EventId) (d : TimelineDetails) (l : List TimelineItem) :
    depDetails (updateDeps eid d l).1 eid = (depDetails l eid).map (fun _ => d) := by
  rw [show (updateDeps eid d l).1 = l.map (updItem eid d) from updateDepsAux_fst eid d l 0]
  rw [depDetails, List.filterMap_map]
  rw [show ((replyRef eid) ∘ (updItem eid d)) = fun it => (replyRef eid it).map (fun _ => d)
    from funext fun it => replyRef_updItem eid d it]
  rw [depDetails, ← List.map_filterMap]

theorem hasDep_updateDeps (eid : EventId) (d : TimelineDetails) (l : List TimelineItem) :
    hasDep (updateDeps eid d l).1 eid = hasDep l eid := by
  rw [show (updateDeps eid d l).1 = l.map (updItem eid d) from updateDepsAux_fst eid d l 0]
  rw [hasDep, List.any_map, hasDep]
  congr 1
  funext it
  simp [replyRef_updItem]

theorem updateDepsAux_snd_shape (eid : EventId) (d : TimelineDetails) (l : List TimelineItem) :
    ∀ n, (updateDepsAux eid d n l).2.length = (depDetails l eid).length ∧
      ∀ x ∈ (updateDepsAux eid d n l).2, ∃ i v, x = VectorDiff.set i v := by
  induction l with
  | nil => intro n; simp [updateDepsAux, depDetails]
  | cons it rest ih =>
      intro n
      cases it with
      | event e =>
          cases hs : setReplyDetails eid d e with
          | none =>
              have hnone : replyRef eid (.event e) = none := by
                simp only [replyRef]
                simp only [setReplyDetails] at hs
                cases hc : e.content with
                | message b rp =>
                    cases rp with
                    | none => rfl
                    | some r =>
                        rw [hc] at hs
                        by_cases ht : r.eventId = eid
                        · simp [ht] at hs
                        · simp [ht]
                | redactedMessage => rfl
                | other k => rfl
              simp only [updateDepsAux, hs, depDetails, List.filterMap_cons, hnone]
              exact ⟨(ih (n + 1)).1, (ih (n + 1)).2⟩
          | some e' =>
              have hsome : ∃ dd, replyRef eid (.event e) = some dd := by
                simp only [replyRef]
                simp only [setReplyDetails] at hs
                cases hc : e.content with
                | message b rp =>
                    cases rp with
                    | none => rw [hc] at hs; simp at hs
                    | some r =>
                        rw [hc] at hs
                        by_cases ht : r.eventId = eid
                        · exact ⟨r.details, by simp [ht]⟩
                        · simp [ht] at hs
                | redactedMessage => rw [hc] at hs; simp at hs
                | other k => rw [hc] at hs; simp at hs
              obtain ⟨dd, hdd⟩ := hsome
              simp only [updateDepsAux, hs, depDetails, List.filterMap_cons, hdd]
              refine ⟨by simpa using (ih (n + 1)).1, ?_⟩
              intro x hx
              rcases List.mem_cons.mp hx with rfl | hx
              · exact ⟨n, _, rfl⟩
              · exact (ih (n + 1)).2 x hx
      | virtual v =>
          simp only [updateDepsAux, depDetails, List.filterMap_cons, replyRef]
          exact ⟨(ih (n + 1)).1, (ih (n + 1)).2⟩

theorem ingest_fetchCalls (pf : NEvent → Bool) (st : TState) (ev : NEvent) :
    (ingest pf st ev).1.fetchCalls = st.fetchCalls := by
  cases ev with
  | message eid s ts body rep own => rfl
  | edit x s ts target nb =>
      cases hf : findByEventId st.items target with
      | none => simp [ingest, hf]
      | some ie =>
          obtain ⟨i, e⟩ := ie
          cases ha : applyEditToItem s nb e with
          | none => simp [ingest, hf, ha]
          | some e' => simp [ingest, hf, ha]
  | reaction rid s ts target key =>
      cases hf : findByEventId st.items target with
      | none => simp [ingest, hf]
      | some ie =>
          obtain ⟨i, e⟩ := ie
          cases ha : applyReactionToItem key s rid e with
          | none => simp [ingest, hf, ha]
          | some e' => simp [ingest, hf, ha]
  | redaction x s ts target =>
      cases hf : findByEventId st.items target with
      | none =>
          cases hr : findReactionEntry st.items target with
          | none => simp [ingest, hf, hr]
          | some ie =>
              obtain ⟨i, e'⟩ := ie
              simp [ingest, hf, hr]
      | some ie =>
          obtain ⟨i, e⟩ := ie
          cases ha : applyRedactionToItem e with
          | none => simp [ingest, hf, ha]
          | some e' => simp [ingest, hf, ha]

/-- C2: the lazy reply-resolution lifecycle. Resolution of a target already
in the Item Store is ready synchronously; resolution of an absent target is
unavailable; ingestion never performs a fetch (the fetch log is untouched);
a successful explicit detail-fetch call logs exactly one fetch and moves
every dependent item to pending, emitting one in-place update per dependent;
completion moves every dependent to ready on success or to the failed state
on failure; dependence survives completion, so a retry call after a failure
runs the cycle again. -/
theorem c2_reply_details_lifecycle :
    (∀ (st : TState) (pre post : List TimelineItem) (e : EventItem) (t : EventId),
      st.items = pre ++ .event e :: post → e.eventId = some t →
      (∀ it ∈ pre, placedId it ≠ some t) →
      resolve st t = .ready (bodyOf e)) ∧
    (∀ (st : TState) (t : EventId),
      (∀ it ∈ st.items, placedId it ≠ some t) → resolve st t = .unavailable) ∧
    (∀ (pf : NEvent → Bool) (st : TState) (ev : NEvent),
      (ingest pf st ev).1.fetchCalls = st.fetchCalls) ∧
    (∀ (st : TState) (eid : EventId), hasDep st.items eid = true →
      (fetch_details_for_event st eid).2.2 = none ∧
      (fetch_details_for_event st eid).1.fetchCalls = st.fetchCalls ++ [eid] ∧
      depDetails (fetch_details_for_event st eid).1.items eid =
        (depDetails st.items eid).map (fun _ => .pending) ∧
      (fetch_details_for_event st eid).2.1.length = (depDetails st.items eid).length ∧
      (∀ d ∈ (fetch_details_for_event st eid).2.1, ∃ i v, d = VectorDiff.set i v)) ∧
    (∀ (st : TState) (eid : EventId) (b : String),
      depDetails (fetchComplete st eid (.ok b)).1.items eid =
        (depDetails st.items eid).map (fun _ => .ready b)) ∧
    (∀ (st : TState) (eid : EventId) (m : String),
      depDetails (fetchComplete st eid (.error m)).1.items eid =
        (depDetails st.items eid).map (fun _ => .failed m)) ∧
    (∀ (st : TState) (eid : EventId) (res : Except String String),
      hasDep (fetchComplete st eid res).1.items eid = hasDep st.items eid) := by
  refine ⟨?_, ?_, ingest_fetchCalls, ?_, ?_, ?_, ?_⟩
  · intro st pre post e t hitems he hpre
    have := findByEventIdAux_append t pre e post he hpre 0
    simp only [resolve, findByEventId, hitems, this]
  · intro st t h
    have := findByEventIdAux_none t st.items h 0
    simp only [resolve, findByEventId, this]
  · intro st eid h
    refine ⟨by simp [fetch_details_for_event, h], by simp [fetch_details_for_event, h], ?_, ?_, ?_⟩
    · simpa [fetch_details_for_event, h] using
        depDetails_updateDeps eid .pending st.items
    · simpa [fetch_details_for_event, h] using
        (updateDepsAux_snd_shape eid .pending st.items 0).1
    · simpa [fetch_details_for_event, h] using
        (updateDepsAux_snd_shape eid .pending st.items 0).2
  · intro st eid b
    simpa [fetchComplete] using depDetails_updateDeps eid (.ready b) st.items
  · intro st eid m
    simpa [fetchComplete] using depDetails_updateDeps eid (.failed m) st.items
  · intro st eid res
    cases res with
    | ok b => simpa [fetchComplete] using hasDep_updateDeps eid (.ready b) st.items
    | error m => simpa [fetchComplete] using hasDep_updateDeps eid (.failed m) st.items

/-- Witness for C2: a present target resolves ready, an absent target
resolves unavailable, and a fetch on a state with one dependent moves that
dependent to pending. -/
theorem c2_reply_details_lifecycle_witness :
    resolve ⟨[.event ⟨0, some "$e1", "alice", 100, .message "hello" none,
        [], false, false, false, ["alice"]⟩], 1, [], []⟩ "$e1" =
      .ready "hello" ∧
    resolve initState "$x" = .unavailable ∧
    depDetails (fetch_details_for_event
        ⟨[.event ⟨0, some "$e3", "bob", 300, .message "you were right"
            (some ⟨"$remote", .unavailable⟩), [], false, false, false, ["bob"]⟩], 1, [], []⟩
        "$remote").1.items "$remote" = [.pending] := by
  obtain ⟨hA, hB, _, hD, _⟩ := c2_reply_details_lifecycle
  refine ⟨hA _ [] [] ⟨0, some "$e1", "alice", 100, .message "hello" none,
      [], false, false, false, ["alice"]⟩ "$e1" rfl rfl (by simp),
    hB initState "$x" (by simp [initState]), ?_⟩
  have h := (hD ⟨[.event ⟨0, some "$e3", "bob", 300, .message "you were right"
      (some ⟨"$remote", .unavailable⟩), [], false, false, false, ["bob"]⟩], 1, [], []⟩
    "$remote" (by decide)).2.2.1
  rw [h]
  rfl

/-- C4: applying a replace edit from the original sender to a placed message
changes only the content of that item: the effect is exactly one in-place
set diff at the current index of the item, the new item carries the new body
with the edited flag set, and the local identifier, timestamp, reactions and
the position of every other item are unchanged. -/
theorem c4_edit_replaces_content_in_place (pf : NEvent → Bool) (st : TState)
    (pre post : List TimelineItem) (e : EventItem) (t x : EventId) (ts2 : Nat)
    (b nb : String) (rep : Option InReplyTo)
    (hitems : st.items = pre ++ .event e :: post) (he : e.eventId = some t)
    (hpre : ∀ it ∈ pre, placedId it ≠ some t) (hc : e.content = .message b rep) :
    ingest pf st (.edit x e.sender ts2 t nb) =
      ({ st with items :=
          pre ++ .event { e with content := .message nb rep, edited := true } :: post },
       [.set pre.length (.event { e with content := .message nb rep, edited := true })]) ∧
    ({ e with content := .message nb rep, edited := true } : EventItem).localId = e.localId ∧
    ({ e with content := .message nb rep, edited := true } : EventItem).timestamp =
      e.timestamp ∧
    ({ e with content := .message nb rep, edited := true } : EventItem).reactions =
      e.reactions ∧
    (pre ++ .event { e with content := .message nb rep, edited := true } :: post).length =
      st.items.length ∧
    (∀ j, j ≠ pre.length →
      (pre ++ .event { e with content := .message nb rep, edited := true } :: post)[j]? =
        st.items[j]?) := by
  have hfind : findByEventId st.items t = some (pre.length, e) := by
    rw [findByEventId, hitems]
    simpa using findByEventIdAux_append t pre e post he hpre 0
  have happ : applyEditToItem e.sender nb e =
      some { e with content := .message nb rep, edited := true } := by
    simp [applyEditToItem, hc]
  have hset : st.items.set pre.length
      (.event { e with content := .message nb rep, edited := true }) =
      pre ++ .event { e with content := .message nb rep, edited := true } :: post := by
    rw [hitems, set_append_cons]
  refine ⟨?_, rfl, rfl, rfl, by simp [hitems], ?_⟩
  · simp only [ingest, hfind, happ, hset]
  · intro j hj
    rw [← hset, hitems]
    exact List.getElem?_set_ne (by omega)

/-- Witness for C4: a concrete one-message timeline edited by its sender. -/
theorem c4_edit_replaces_content_in_place_witness :
    ingest (fun _ => false)
        ⟨[.event ⟨0, some "$m", "@alice", 100, .message "hello" none,
            [], false, false, false, ["@alice"]⟩], 1, [], []⟩
        (.edit "$x" "@alice" 200 "$m" "hi") =
      (⟨[.event ⟨0, some "$m", "@alice", 100, .message "hi" none,
            [], true, false, false, ["@alice"]⟩], 1, [], []⟩,
       [.set 0 (.event ⟨0, some "$m", "@alice", 100, .message "hi" none,
            [], true, false, false, ["@alice"]⟩)]) :=
  (c4_edit_replaces_content_in_place (fun _ => false) _ [] []
    ⟨0, some "$m", "@alice", 100, .message "hello" none, [], false, false, false, ["@alice"]⟩
    "$m" "$x" 200 "hello" "hi" none rfl rfl (by simp) rfl).1

theorem findReactionAux_append (rid : EventId) (pre : List TimelineItem) (e : EventItem)
    (post : List TimelineItem) (he : hasReactionId rid e.reactions = true)
    (hpre : ∀ it ∈ pre, itemHasRid rid it = false) :
    ∀ n, findReactionAux rid n (pre ++ .event e :: post) =
      some (n + pre.length, { e with reactions := rmReactionId rid e.reactions }) := by
  induction pre with
  | nil => intro n; simp [findReactionAux, he]
  | cons it rest ih =>
      intro n
      have hit := hpre it (by simp)
      have hrest : ∀ x ∈ rest, itemHasRid rid x = false := fun x hx => hpre x (by simp [hx])
      cases it with
      | event e0 =>
          have h0 : hasReactionId rid e0.reactions = false := by simpa [itemHasRid] using hit
          simp only [List.cons_append, findReactionAux, h0]
          simpa [List.append_eq, Nat.add_comm, Nat.add_assoc, Nat.add_left_comm] using
            ih hrest (n + 1)
      | virtual v =>
          simp only [List.cons_append, findReactionAux]
          simpa [List.append_eq, Nat.add_comm, Nat.add_assoc, Nat.add_left_comm] using
            ih hrest (n + 1)

/-- C5: on a placed message with no reactions, ingesting a reaction from one
sender and then a redaction of that reaction event produces exactly two
in-place set diffs at the index of the message: first the group appears with
that single sender entry, then the group disappears entirely and the item
returns to its previous value, its content and edited flag untouched. -/
theorem c5_reaction_redaction_round_trip (pf : NEvent → Bool) (st : TState)
    (pre post : List TimelineItem) (e : EventItem) (t r x : EventId) (ts1 ts2 : Nat)
    (k b : String) (rep : Option InReplyTo) (bobU s2 : UserId)
    (hitems : st.items = pre ++ .event e :: post) (he : e.eventId = some t)
    (hpre : ∀ it ∈ pre, placedId it ≠ some t) (hc : e.content = .message b rep)
    (hre : e.reactions = []) (hr : ∀ it ∈ st.items, placedId it ≠ some r)
    (hrid : ∀ it ∈ pre, itemHasRid r it = false) :
    ingest pf st (.reaction r bobU ts1 t k) =
      ({ st with items := pre ++ .event { e with reactions := [(k, [⟨bobU, r⟩])] } :: post },
       [.set pre.length (.event { e with reactions := [(k, [⟨bobU, r⟩])] })]) ∧
    ingest pf (⟨pre ++ .event { e with reactions := [(k, [⟨bobU, r⟩])] } :: post,
        st.nextLocalId, st.pendingRel, st.fetchCalls⟩ : TState)
        (.redaction x s2 ts2 r) =
      (st, [.set pre.length (.event e)]) := by
  have hfind : findByEventId st.items t = some (pre.length, e) := by
    rw [findByEventId, hitems]
    simpa using findByEventIdAux_append t pre e post he hpre 0
  have happ : applyReactionToItem k bobU r e =
      some { e with reactions := [(k, [⟨bobU, r⟩])] } := by
    simp [applyReactionToItem, hc, hre, addReaction]
  have hset : st.items.set pre.length (.event { e with reactions := [(k, [⟨bobU, r⟩])] }) =
      pre ++ .event { e with reactions := [(k, [⟨bobU, r⟩])] } :: post := by
    rw [hitems, set_append_cons]
  constructor
  · simp only [ingest, hfind, happ, hset]
  · have htr : (some t : Option EventId) ≠ some r := by
      have := hr (.event e) (by rw [hitems]; simp)
      simpa [placedId, he] using this
    have hnone : findByEventId
        (pre ++ .event { e with reactions := [(k, [⟨bobU, r⟩])] } :: post) r = none := by
      apply findByEventIdAux_none
      intro it hit
      rcases List.mem_append.mp hit with hin | hin
      · exact hr it (by rw [hitems]; exact List.mem_append.mpr (Or.inl hin))
      · rcases List.mem_cons.mp hin with rfl | hin
        · simpa [placedId, he] using htr
        · exact hr it (by rw [hitems]; exact List.mem_append.mpr (Or.inr (by simp [hin])))
    have hhas : hasReactionId r ([(k, [⟨bobU, r⟩])] : Reactions) = true := by
      simp [hasReactionId]
    have hfr : findReactionEntry
        (pre ++ .event { e with reactions := [(k, [⟨bobU, r⟩])] } :: post) r =
        some (pre.length, { e with reactions := [] }) := by
      rw [findReactionEntry]
      have := findReactionAux_append r pre { e with reactions := [(k, [⟨bobU, r⟩])] } post
        hhas hrid 0
      simpa [rmReactionId] using this
    have hee : ({ e with reactions := [] } : EventItem) = e := by
      rw [← hre]
    have hset2 : (pre ++ .event { e with reactions := [(k, [⟨bobU, r⟩])] } :: post).set
        pre.length (.event e) = st.items := by
      rw [set_append_cons, ← hitems]
    simp only [ingest, hnone, hfr, hee, hset2]

/-- Witness for C5: a concrete message receiving one thumbs-up reaction and
then the redaction of that reaction. -/
theorem c5_reaction_redaction_round_trip_witness :
    ingest (fun _ => false)
        ⟨[.event ⟨0, some "$m", "@alice", 100, .message "hello" none,
            [], false, false, false, ["@alice"]⟩], 1, [], []⟩
        (.reaction "$r" "@bob" 200 "$m" "up") =
      (⟨[.event ⟨0, some "$m", "@alice", 100, .message "hello" none,
            [("up", [⟨"@bob", "$r"⟩])], false, false, false, ["@alice"]⟩], 1, [], []⟩,
       [.set 0 (.event ⟨0, some "$m", "@alice", 100, .message "hello" none,
            [("up", [⟨"@bob", "$r"⟩])], false, false, false, ["@alice"]⟩)]) ∧
    ingest (fun _ => false)
        ⟨[.event ⟨0, some "$m", "@alice", 100, .message "hello" none,
            [("up", [⟨"@bob", "$r"⟩])], false, false, false, ["@alice"]⟩], 1, [], []⟩
        (.redaction "$x" "@bob" 300 "$r") =
      (⟨[.event ⟨0, some "$m", "@alice", 100, .message "hello" none,
            [], false, false, false, ["@alice"]⟩], 1, [], []⟩,
       [.set 0 (.event ⟨0, some "$m", "@alice", 100, .message "hello" none,
            [], false, false, false, ["@alice"]⟩)]) :=
  c5_reaction_redaction_round_trip (fun _ => false) _ [] []
    ⟨0, some "$m", "@alice", 100, .message "hello" none, [], false, false, false, ["@alice"]⟩
    "$m" "$r" "$x" 200 300 "up" "hello" none "@bob" "@bob"
    rfl rfl (by simp) rfl rfl (by decide) (by simp)

/-! Read-marker accounting: every serialized operation keeps at most one
read marker in the sequence. -/

/-- The number of read markers in an item sequence. -/
def markerCount (items : List TimelineItem) : Nat := items.countP isMarker

theorem markerCount_insertAt (v : TimelineItem) (l : List TimelineItem) (i : Nat) :
    markerCount (insertAt i v l) = markerCount l + if isMarker v then 1 else 0 := by
  rw [markerCount, insertAt, List.countP_append, List.countP_cons]
  rw [show List.countP isMarker (l.take i) + (List.countP isMarker (l.drop i) +
      if isMarker v = true then 1 else 0) =
    (List.countP isMarker (l.take i) + List.countP isMarker (l.drop i)) +
      if isMarker v = true then 1 else 0 from by omega]
  rw [← List.countP_append, List.take_append_drop, markerCount]

theorem countP_eraseIdx_of_p (p : TimelineItem → Bool) :
    ∀ (l : List TimelineItem) (i : Nat) (hi : i < l.length),
      p (l.get ⟨i, hi⟩) = true → List.countP p (l.eraseIdx i) + 1 = List.countP p l := by
  intro l
  induction l with
  | nil => intro i hi; simp at hi
  | cons x xs ih =>
      intro i hi hp
      cases i with
      | zero =>
          simp only [List.get] at hp
          simp [List.eraseIdx, List.countP_cons, hp]
      | succ n =>
          simp only [List.get] at hp
          have hn : n < xs.length := by simpa using hi
          simp only [List.eraseIdx, List.countP_cons]
          have := ih n hn hp
          omega

theorem markerCount_set_event (l : List TimelineItem) (i : Nat) (e : EventItem) :
    markerCount (l.set i (.event e)) ≤ markerCount l := by
  induction l generalizing i with
  | nil => simp [markerCount]
  | cons x xs ih =>
      cases i with
      | zero => simp [List.set, markerCount, List.countP_cons, isMarker]
      | succ n =>
          simp only [List.set, markerCount, List.countP_cons] at *
          have := ih n
          omega

theorem markerCount_removeReceipt (u : UserId) (l : List TimelineItem) :
    ∀ n, markerCount (removeReceipt u n l).1 = markerCount l := by
  induction l with
  | nil => intro n; rfl
  | cons it rest ih =>
      intro n
      cases it with
      | event e =>
          by_cases hu : u ∈ e.readReceipts
          · simp [removeReceipt, if_pos hu, markerCount, List.countP_cons, isMarker]
          · simp only [removeReceipt, if_neg hu, markerCount, List.countP_cons, isMarker]
            simpa [markerCount] using ih (n + 1)
      | virtual v =>
          simp only [removeReceipt, markerCount, List.countP_cons]
          have := ih (n + 1)
          simp only [markerCount] at this
          omega

theorem isMarker_updItem (eid : EventId) (d : TimelineDetails) (it : TimelineItem) :
    isMarker (updItem eid d it) = isMarker it := by
  cases it with
  | event e => cases hs : setReplyDetails eid d e <;> simp [updItem, hs, isMarker]
  | virtual v => rfl

theorem markerCount_updateDeps (eid : EventId) (d : TimelineDetails)
    (l : List TimelineItem) : markerCount (updateDeps eid d l).1 = markerCount l := by
  rw [show (updateDeps eid d l).1 = l.map (updItem eid d) from updateDepsAux_fst eid d l 0]
  rw [markerCount, List.countP_map, markerCount]
  congr 1
  funext it
  simp [isMarker_updItem]

theorem markerCount_divItemsOf (st : TState) (ts : Nat) :
    markerCount (divItemsOf st ts) = 0 := by
  rw [divItemsOf]
  split <;> simp [markerCount, List.countP_cons, isMarker]

theorem markerCount_ingest (pf : NEvent → Bool) (st : TState) (ev : NEvent) :
    markerCount (ingest pf st ev).1.items ≤ markerCount st.items := by
  cases ev with
  | message eid s ts body rep own =>
      show markerCount ((removeReceipt s 0 st.items).1 ++ divItemsOf st ts ++ [_]) ≤ _
      rw [markerCount, List.countP_append, List.countP_append]
      have h1 := markerCount_removeReceipt s st.items 0
      have h2 := markerCount_divItemsOf st ts
      rw [markerCount] at h1 h2
      simp [h1, h2, List.countP_cons, isMarker]
  | edit x s ts target nb =>
      cases hf : findByEventId st.items target with
      | none => simp [ingest, hf]
      | some ie =>
          obtain ⟨i, e⟩ := ie
          cases ha : applyEditToItem s nb e with
          | none => simp [ingest, hf, ha]
          | some e' => simpa [ingest, hf, ha] using markerCount_set_event st.items i e'
  | reaction rid s ts target key =>
      cases hf : findByEventId st.items target with
      | none => simp [ingest, hf]
      | some ie =>
          obtain ⟨i, e⟩ := ie
          cases ha : applyReactionToItem key s rid e with
          | none => simp [ingest, hf, ha]
          | some e' => simpa [ingest, hf, ha] using markerCount_set_event st.items i e'
  | redaction x s ts target =>
      cases hf : findByEventId st.items target with
      | none =>
          cases hr : findReactionEntry st.items target with
          | none => simp [ingest, hf, hr]
          | some ie =>
              obtain ⟨i, e'⟩ := ie
              simpa [ingest, hf, hr] using markerCount_set_event st.items i e'
      | some ie =>
          obtain ⟨i, e⟩ := ie
          cases ha : applyRedactionToItem e with
          | none => simp [ingest, hf, ha]
          | some e' => simpa [ingest, hf, ha] using markerCount_set_event st.items i e'

theorem markerCount_handleFullyRead (st : TState) (eid : EventId)
    (h : markerCount st.items ≤ 1) :
    markerCount (handleFullyRead st eid).1.items ≤ 1 := by
  cases hf : findByEventId st.items eid with
  | none => simpa [handleFullyRead, hf] using h
  | some ie =>
      obtain ⟨i, e⟩ := ie
      by_cases hl : i + 1 = st.items.length
      · simpa [handleFullyRead, hf, hl] using h
      · cases hm : st.items.findIdx? isMarker with
        | none =>
            have hz : markerCount st.items = 0 := by
              rw [markerCount, List.countP_eq_zero]
              exact fun a ha => by simp [List.findIdx?_eq_none_iff.mp hm a ha]
            simp [handleFullyRead, hf, hl, hm, markerCount_insertAt, isMarker, hz]
        | some j =>
            obtain ⟨hjl, hpj, _⟩ := List.findIdx?_eq_some_iff_getElem.mp hm
            have herase : markerCount (st.items.eraseIdx j) + 1 = markerCount st.items := by
              rw [markerCount, markerCount]
              exact countP_eraseIdx_of_p isMarker st.items j hjl (by simpa using hpj)
            simp only [handleFullyRead, hf, hl, hm, if_neg hl]
            simp [markerCount_insertAt, isMarker]
            omega

theorem markerCount_runOp (st : TState) (o : Op) (h : markerCount st.items ≤ 1) :
    markerCount (runOp st o).1.items ≤ 1 := by
  cases o with
  | ing pf ev => exact le_trans (markerCount_ingest pf st ev) h
  | fullyRead eid => exact markerCount_handleFullyRead st eid h
  | fStart eid =>
      by_cases hd : hasDep st.items eid = true
      · simpa [runOp, fetch_details_for_event, hd, markerCount_updateDeps] using h
      · simpa [runOp, fetch_details_for_event, hd] using h
  | fDone eid res =>
      simpa [runOp, fetchComplete, markerCount_updateDeps] using h

/-- C6: the fully-read account-data event id places the read marker as the
spec prescribes: when the referenced item is absent or is the last item of
the sequence nothing changes and no diff is emitted; otherwise any existing
marker is removed and exactly one read marker is inserted immediately after
the referenced item, leaving exactly one marker; and every state reachable
from the empty timeline holds at most one read marker. -/
theorem c6_read_marker_placement :
    (∀ st : TState, SReach st → markerCount st.items ≤ 1) ∧
    (∀ (st : TState) (eid : EventId),
      findByEventId st.items eid = none → handleFullyRead st eid = (st, [])) ∧
    (∀ (st : TState) (eid : EventId) (i : Nat) (e : EventItem),
      findByEventId st.items eid = some (i, e) → i + 1 = st.items.length →
      handleFullyRead st eid = (st, [])) ∧
    (∀ (st : TState) (eid : EventId) (i : Nat) (e : EventItem),
      findByEventId st.items eid = some (i, e) → i + 1 ≠ st.items.length →
      markerCount st.items ≤ 1 →
      markerCount (handleFullyRead st eid).1.items = 1 ∧
      (st.items.findIdx? isMarker = none →
        (handleFullyRead st eid).1.items = insertAt (i + 1) (.virtual .readMarker) st.items ∧
        (handleFullyRead st eid).2 = [.insert (i + 1) (.virtual .readMarker)]) ∧
      (∀ j, st.items.findIdx? isMarker = some j →
        (handleFullyRead st eid).1.items =
          insertAt (if j ≤ i then i else i + 1) (.virtual .readMarker)
            (st.items.eraseIdx j) ∧
        (handleFullyRead st eid).2 =
          [.remove j, .insert (if j ≤ i then i else i + 1) (.virtual .readMarker)])) := by
  refine ⟨?_, ?_, ?_, ?_⟩
  · intro st hs
    induction hs with
    | init => simp [initState, markerCount]
    | step o hs ih => exact markerCount_runOp _ o ih
  · intro st eid hf
    simp [handleFullyRead, hf]
  · intro st eid i e hf hl
    simp [handleFullyRead, hf, hl]
  · intro st eid i e hf hl hle
    refine ⟨?_, ?_, ?_⟩
    · cases hm : st.items.findIdx? isMarker with
      | none =>
          have hz : markerCount st.items = 0 := by
            rw [markerCount, List.countP_eq_zero]
            exact fun a ha => by simp [List.findIdx?_eq_none_iff.mp hm a ha]
          simp [handleFullyRead, hf, hl, hm, markerCount_insertAt, isMarker, hz]
      | some j =>
          obtain ⟨hjl, hpj, _⟩ := List.findIdx?_eq_some_iff_getElem.mp hm
          have herase : markerCount (st.items.eraseIdx j) + 1 = markerCount st.items := by
            rw [markerCount, markerCount]
            exact countP_eraseIdx_of_p isMarker st.items j hjl (by simpa using hpj)
          have hge : 1 ≤ markerCount st.items := by omega
          simp only [handleFullyRead, hf, hl, if_neg hl, hm]
          simp [markerCount_insertAt, isMarker]
          omega
    · intro hm
      simp [handleFullyRead, hf, hl, hm]
    · intro j hm
      simp [handleFullyRead, hf, hl, hm]

/-- Witness for C6: on a three-message timeline, marking the middle message
inserts exactly one marker right after it and marking the last message does
nothing; the reachable empty timeline has no marker. -/
theorem c6_read_marker_placement_witness :
    markerCount initState.items ≤ 1 ∧
    handleFullyRead
      (⟨[.event ⟨0, some "$a", "@u", 100, .message "A" none, [], false, false, false, []⟩,
         .event ⟨1, some "$b", "@u", 200, .message "B" none, [], false, false, false, []⟩,
         .event ⟨2, some "$c", "@u", 300, .message "C" none, [], false, false, false, []⟩],
        3, [], []⟩ : TState) "$c" =
      (⟨[.event ⟨0, some "$a", "@u", 100, .message "A" none, [], false, false, false, []⟩,
         .event ⟨1, some "$b", "@u", 200, .message "B" none, [], false, false, false, []⟩,
         .event ⟨2, some "$c", "@u", 300, .message "C" none, [], false, false, false, []⟩],
        3, [], []⟩, []) ∧
    (handleFullyRead
      (⟨[.event ⟨0, some "$a", "@u", 100, .message "A" none, [], false, false, false, []⟩,
         .event ⟨1, some "$b", "@u", 200, .message "B" none, [], false, false, false, []⟩,
         .event ⟨2, some "$c", "@u", 300, .message "C" none, [], false, false, false, []⟩],
        3, [], []⟩ : TState) "$b").2 =
      [.insert 2 (.virtual .readMarker)] := by
  refine ⟨c6_read_marker_placement.1 initState SReach.init, ?_, ?_⟩
  · exact c6_read_marker_placement.2.2.1 _ "$c" 2
      ⟨2, some "$c", "@u", 300, .message "C" none, [], false, false, false, []⟩
      (by decide) (by decide)
  · exact ((c6_read_marker_placement.2.2.2 _ "$b" 1
      ⟨1, some "$b", "@u", 200, .message "B" none, [], false, false, false, []⟩
      (by decide) (by decide) (by decide)).2.1 (by decide)).2

/-- C7 counterexample: the claim as stated fails on the model. The target of
a redaction can be a reaction event, which corresponds to no placed item,
yet its redaction changes the reacted item and emits a diff: on a timeline
whose single message holds one reaction with event id r, redacting r emits
one set diff even though no placed item carries id r. -/
theorem c7_redaction_counterexample :
    (∀ it ∈ (⟨[.event ⟨0, some "$m", "@a", 100, .message "hello" none,
        [("up", [⟨"@b", "$r"⟩])], false, false, false, []⟩], 1, [], []⟩ : TState).items,
      placedId it ≠ some "$r") ∧
    (ingest (fun _ => false)
        ⟨[.event ⟨0, some "$m", "@a", 100, .message "hello" none,
            [("up", [⟨"@b", "$r"⟩])], false, false, false, []⟩], 1, [], []⟩
        (.redaction "$x" "@b" 300 "$r")).2 ≠ [] := by
  decide

/-- C7 amended: ingesting a redaction whose target is an already-redacted
placed item, or whose target corresponds to neither a placed item nor a
recorded reaction entry, leaves the item sequence unchanged and emits no
diff to any subscriber. -/
theorem c7_redaction_idempotent (pf : NEvent → Bool) (st : TState)
    (x target : EventId) (s : UserId) (ts : Nat) :
    (∀ i e, findByEventId st.items target = some (i, e) → e.content = .redactedMessage →
      ingest pf st (.redaction x s ts target) = (st, [])) ∧
    (findByEventId st.items target = none → findReactionEntry st.items target = none →
      (ingest pf st (.redaction x s ts target)).1.items = st.items ∧
      (ingest pf st (.redaction x s ts target)).2 = []) := by
  constructor
  · intro i e hf hc
    simp [ingest, hf, applyRedactionToItem, hc]
  · intro hf hr
    simp [ingest, hf, hr]

/-- Witness for C7: redacting an already-redacted message and redacting an
id absent from the empty timeline are both observable no-ops. -/
theorem c7_redaction_idempotent_witness :
    ingest (fun _ => false)
        ⟨[.event ⟨0, some "$m", "@a", 100, .redactedMessage, [], false, false, false, []⟩],
          1, [], []⟩ (.redaction "$x" "@a" 300 "$m") =
      (⟨[.event ⟨0, some "$m", "@a", 100, .redactedMessage, [], false, false, false, []⟩],
          1, [], []⟩, []) ∧
    (ingest (fun _ => false) initState (.redaction "$x" "@a" 300 "$zz")).1.items = [] ∧
    (ingest (fun _ => false) initState (.redaction "$x" "@a" 300 "$zz")).2 = [] := by
  refine ⟨(c7_redaction_idempotent (fun _ => false) _ "$x" "$m" "@a" 300).1 0
      ⟨0, some "$m", "@a", 100, .redactedMessage, [], false, false, false, []⟩
      (by decide) rfl, ?_, ?_⟩
  · exact ((c7_redaction_idempotent (fun _ => false) initState "$x" "$zz" "@a" 300).2
      (by decide) (by decide)).1
  · exact ((c7_redaction_idempotent (fun _ => false) initState "$x" "$zz" "@a" 300).2
      (by decide) (by decide)).2

set_option maxHeartbeats 2000000 in
/-- C8: relation application is order-independent. For a target message, an
edit by the original sender, a reaction and a redaction of the target, with
the relations in timestamp order in the canonical list, ingesting any
permutation of the four events from the empty timeline converges to exactly
the state produced by the canonical arrival order (target first, then the
relations), in particular the same content, edited flag and reaction set. -/
theorem c8_relations_order_independent (pf : NEvent → Bool) (b b2 k : String)
    (t e r d : EventId) (aliceU bobU carolU : UserId) (tsT tsE tsR tsD : Nat)
    (hER : tsE ≤ tsR) (hRD : tsR ≤ tsD) (l : List NEvent)
    (hl : l.Perm [NEvent.message t aliceU tsT b none false, NEvent.edit e aliceU tsE t b2,
      NEvent.reaction r bobU tsR t k, NEvent.redaction d carolU tsD t]) :
    ingestList pf initState l = ingestList pf initState
      [NEvent.message t aliceU tsT b none false, NEvent.edit e aliceU tsE t b2,
       NEvent.reaction r bobU tsR t k, NEvent.redaction d carolU tsD t] := by
  have hm := List.mem_permutations'.mpr hl
  have hexp : List.permutations' [NEvent.message t aliceU tsT b none false,
      NEvent.edit e aliceU tsE t b2, NEvent.reaction r bobU tsR t k,
      NEvent.redaction d carolU tsD t] =
      [[NEvent.message t aliceU tsT b none false, NEvent.edit e aliceU tsE t b2, NEvent.reaction r bobU tsR t k, NEvent.redaction d carolU tsD t],
       [NEvent.edit e aliceU tsE t b2, NEvent.message t aliceU tsT b none false, NEvent.reaction r bobU tsR t k, NEvent.redaction d carolU tsD t],
       [NEvent.edit e aliceU tsE t b2, NEvent.reaction r bobU tsR t k, NEvent.message t aliceU tsT b none false, NEvent.redaction d carolU tsD t],
       [NEvent.edit e aliceU tsE t b2, NEvent.reaction r bobU tsR t k, NEvent.redaction d carolU tsD t, NEvent.message t aliceU tsT b none false],
       [NEvent.message t aliceU tsT b none false, NEvent.reaction r bobU tsR t k, NEvent.edit e aliceU tsE t b2, NEvent.redaction d carolU tsD t],
       [NEvent.reaction r bobU tsR t k, NEvent.message t aliceU tsT b none false, NEvent.edit e aliceU tsE t b2, NEvent.redaction d carolU tsD t],
       [NEvent.reaction r bobU tsR t k, NEvent.edit e aliceU tsE t b2, NEvent.message t aliceU tsT b none false, NEvent.redaction d carolU tsD t],
       [NEvent.reaction r bobU tsR t k, NEvent.edit e aliceU tsE t b2, NEvent.redaction d carolU tsD t, NEvent.message t aliceU tsT b none false],
       [NEvent.message t aliceU tsT b none false, NEvent.reaction r bobU tsR t k, NEvent.redaction d carolU tsD t, NEvent.edit e aliceU tsE t b2],
       [NEvent.reaction r bobU tsR t k, NEvent.message t aliceU tsT b none false, NEvent.redaction d carolU tsD t, NEvent.edit e aliceU tsE t b2],
       [NEvent.reaction r bobU tsR t k, NEvent.redaction d carolU tsD t, NEvent.message t aliceU tsT b none false, NEvent.edit e aliceU tsE t b2],
       [NEvent.reaction r bobU tsR t k, NEvent.redaction d carolU tsD t, NEvent.edit e aliceU tsE t b2, NEvent.message t aliceU tsT b none false],
       [NEvent.message t aliceU tsT b none false, NEvent.edit e aliceU tsE t b2, NEvent.redaction d carolU tsD t, NEvent.reaction r bobU tsR t k],
       [NEvent.edit e aliceU tsE t b2, NEvent.message t aliceU tsT b none false, NEvent.redaction d carolU tsD t, NEvent.reaction r bobU tsR t k],
       [NEvent.edit e aliceU tsE t b2, NEvent.redaction d carolU tsD t, NEvent.message t aliceU tsT b none false, NEvent.reaction r bobU tsR t k],
       [NEvent.edit e aliceU tsE t b2, NEvent.redaction d carolU tsD t, NEvent.reaction r bobU tsR t k, NEvent.message t aliceU tsT b none false],
       [NEvent.message t aliceU tsT b none false, NEvent.redaction d carolU tsD t, NEvent.edit e aliceU tsE t b2, NEvent.reaction r bobU tsR t k],
       [NEvent.redaction d carolU tsD t, NEvent.message t aliceU tsT b none false, NEvent.edit e aliceU tsE t b2, NEvent.reaction r bobU tsR t k],
       [NEvent.redaction d carolU tsD t, NEvent.edit e aliceU tsE t b2, NEvent.message t aliceU tsT b none false, NEvent.reaction r bobU tsR t k],
       [NEvent.redaction d carolU tsD t, NEvent.edit e aliceU tsE t b2, NEvent.reaction r bobU tsR t k, NEvent.message t aliceU tsT b none false],
       [NEvent.message t aliceU tsT b none false, NEvent.redaction d carolU tsD t, NEvent.reaction r bobU tsR t k, NEvent.edit e aliceU tsE t b2],
       [NEvent.redaction d carolU tsD t, NEvent.message t aliceU tsT b none false, NEvent.reaction r bobU tsR t k, NEvent.edit e aliceU tsE t b2],
       [NEvent.redaction d carolU tsD t, NEvent.reaction r bobU tsR t k, NEvent.message t aliceU tsT b none false, NEvent.edit e aliceU tsE t b2],
       [NEvent.redaction d carolU tsD t, NEvent.reaction r bobU tsR t k, NEvent.edit e aliceU tsE t b2, NEvent.message t aliceU tsT b none false]] := rfl
  rw [hexp] at hm
  simp only [List.mem_cons, List.not_mem_nil, or_false] at hm
  rcases hm with rfl|rfl|rfl|rfl|rfl|rfl|rfl|rfl|rfl|rfl|rfl|rfl|rfl|rfl|rfl|rfl|rfl|rfl|rfl|rfl|rfl|rfl|rfl|rfl
  all_goals simp [ingestList, ingest, placeMessage, placedItem, baseItem, divItemsOf,
    takeQueued, applyRelToItem, applyEditToItem, applyReactionToItem, applyRedactionToItem,
    findByEventId, findByEventIdAux, findReactionEntry, findReactionAux, removeReceipt,
    lastEventTs, dayOf, resolve, addReaction, initState]

/-- Witness for C8: the fully reversed concrete delivery order converges to
the canonical one. -/
theorem c8_relations_order_independent_witness :
    ingestList (fun _ => false) initState
        [NEvent.redaction "$d" "@carol" 400 "$t", NEvent.reaction "$r" "@bob" 300 "$t" "up",
         NEvent.edit "$e" "@alice" 200 "$t" "hi",
         NEvent.message "$t" "@alice" 100 "hello" none false] =
      ingestList (fun _ => false) initState
        [NEvent.message "$t" "@alice" 100 "hello" none false,
         NEvent.edit "$e" "@alice" 200 "$t" "hi", NEvent.reaction "$r" "@bob" 300 "$t" "up",
         NEvent.redaction "$d" "@carol" 400 "$t"] :=
  c8_relations_order_independent (fun _ => false) "hello" "hi" "up" "$t" "$e" "$r" "$d"
    "@alice" "@bob" "@carol" 100 200 300 400 (by decide) (by decide) _ (by decide)

end Timeline
